import Mathlib

/-!
# queuectl — verification of the job-queue engine

Shallow embedding of the `queuectl` background job queue
(`queuectl/storage.py`, `queuectl/worker.py`, `queuectl/cli.py`).

Modelling choices:
* The `jobs` table is a `List Job`; the SQL `PRIMARY KEY` constraint is
  carried as a `Nodup` hypothesis on the list of ids where a theorem
  needs it.
* Timestamps are rationals (ISO-8601 UTC strings compare
  chronologically, so any linearly ordered dense time domain is
  faithful).  `attempts` and `max_retries` are `Nat`: the engine only
  ever stores 0 or an increment of a stored value, so all stored values
  are non-negative.
* Python floats are modelled as `ℚ`; `float(base)` raising an exception
  is modelled by an `Option ℚ` argument (`none` = the conversion or the
  power raised).
* Each SQL statement of `storage.py` runs inside a transaction
  (`BEGIN IMMEDIATE` for the claim); sqlite serialises writers, so every
  store operation is modelled as an atomic function on the whole table
  and concurrent histories are interleavings of these atomic operations.
-/

namespace QueueCtl

/-- `state` column: pending | processing | completed | failed | dead
(`models.py`). -/
inductive JState where
  | pending
  | processing
  | completed
  | failed
  | dead
deriving DecidableEq, Repr

/-- One row of the `jobs` table (`storage.py` schema / `models.py`). -/
structure Job where
  id : String
  command : String
  state : JState
  attempts : Nat
  max_retries : Nat
  created_at : ℚ
  updated_at : ℚ
  next_run_at : ℚ
  last_error : Option String
  priority : Int
  worker_id : Option String
deriving DecidableEq, Repr

/-- The `jobs` table. -/
abbrev Store := List Job

/-- `SELECT * FROM jobs WHERE id=?` (first row; the PK makes it unique). -/
def get_job (job_id : String) (s : Store) : Option Job :=
  s.find? (fun j => j.id == job_id)

/-- `INSERT ... ON CONFLICT(id) DO UPDATE SET ...` of `upsert_job`
(`storage.py:69`).  The `DO UPDATE` list sets `command, state, attempts,
max_retries, updated_at, next_run_at, last_error, priority, worker_id`
from `excluded` — it does NOT set `created_at`, so on conflict the stored
`created_at` survives. -/
def upsert_job (job : Job) (s : Store) : Store :=
  if s.any (fun j => j.id == job.id) then
    s.map (fun j => if j.id == job.id then { job with created_at := j.created_at } else j)
  else
    s ++ [job]

/-- The row produced by `enqueue` (`cli.py:65`): fresh pending job,
`attempts=0`, `created_at=updated_at=next_run_at=now`, no error, no
worker. -/
def enqueueJob (id command : String) (max_retries : Nat) (priority : Int) (now : ℚ) : Job :=
  { id := id
    command := command
    state := .pending
    attempts := 0
    max_retries := max_retries
    created_at := now
    updated_at := now
    next_run_at := now
    last_error := none
    priority := priority
    worker_id := none }

/-- The `WHERE state IN ('pending','failed') AND next_run_at <= ?` filter
of `fetch_and_lock_next_job` (`storage.py:134`). -/
def isReady (now : ℚ) (j : Job) : Bool :=
  (j.state == JState.pending || j.state == JState.failed) && decide (j.next_run_at ≤ now)

/-- `a` sorts strictly before `b` under
`ORDER BY priority DESC, next_run_at ASC, created_at ASC`
(`storage.py:135`). -/
def claimBefore (a b : Job) : Bool :=
  decide (b.priority < a.priority) ||
    (decide (a.priority = b.priority) &&
      (decide (a.next_run_at < b.next_run_at) ||
        (decide (a.next_run_at = b.next_run_at) && decide (a.created_at < b.created_at))))

/-- `ORDER BY ... LIMIT 1` over an already-filtered row list: keep a
running best candidate, replacing it only by a strictly smaller row, so
the result is minimal in the sort order (sqlite leaves the choice among
order-equal rows unspecified; the model keeps the first). -/
def pickBest (best : Option Job) : List Job → Option Job
  | [] => best
  | j :: rest =>
    match best with
    | none => pickBest (some j) rest
    | some b => pickBest (some (if claimBefore j b then j else b)) rest

/-- The `UPDATE jobs SET state='processing', worker_id=?, updated_at=?`
applied to the selected row (`storage.py:144`). -/
def claimUpdate (now : ℚ) (wid : String) (j : Job) : Job :=
  { j with state := .processing, worker_id := some wid, updated_at := now }

/-- `fetch_and_lock_next_job` (`storage.py:126`): inside one immediate
transaction, select the first ready row in the claim order; if none,
return `none` leaving the table unchanged; else move it to `processing`
under `wid` and return the updated row. -/
def fetch_and_lock_next_job (now : ℚ) (wid : String) (s : Store) : Option Job × Store :=
  match pickBest none (s.filter (isReady now)) with
  | none => (none, s)
  | some j =>
    (some (claimUpdate now wid j),
     s.map (fun x => if x.id == j.id then claimUpdate now wid x else x))

/-- `mark_completed` (`storage.py:151`): `UPDATE jobs SET
state='completed', updated_at=?, worker_id=NULL WHERE id=?`. -/
def mark_completed (job_id : String) (now : ℚ) (s : Store) : Store :=
  s.map (fun j =>
    if j.id == job_id then
      { j with state := .completed, updated_at := now, worker_id := none }
    else j)

/-- `mark_failed_or_dead` (`storage.py:157`): when `attempts >=
max_retries` write `state='dead'` (keeping the row's own `max_retries`
and `next_run_at` columns untouched), else write `state='failed'` with
the supplied `next_run_at`; both branches store the supplied `attempts`
and `last_error` and clear `worker_id`. -/
def mark_failed_or_dead (job_id : String) (attempts max_retries : Nat)
    (last_error : String) (next_run_at now : ℚ) (s : Store) : Store :=
  if max_retries ≤ attempts then
    s.map (fun j =>
      if j.id == job_id then
        { j with state := .dead, attempts := attempts, last_error := some last_error,
                 updated_at := now, worker_id := none }
      else j)
  else
    s.map (fun j =>
      if j.id == job_id then
        { j with state := .failed, attempts := attempts, last_error := some last_error,
                 next_run_at := next_run_at, updated_at := now, worker_id := none }
      else j)

/-- `recover_processing` (`storage.py:116`): rewrite every `processing`
row to `failed` with `next_run_at=now`, `worker_id=NULL`. -/
def recover_processing (now : ℚ) (s : Store) : Store :=
  s.map (fun j =>
    if j.state == JState.processing then
      { j with state := .failed, next_run_at := now, worker_id := none, updated_at := now }
    else j)

/-- The row rewrite performed by a successful `dlq_retry`
(`cli.py:193`): reset to `pending`, `attempts=0`, clear the error, make
the job ready now, release the worker. -/
def dlqReset (now : ℚ) (j : Job) : Job :=
  { j with state := .pending, attempts := 0, last_error := none,
           next_run_at := now, updated_at := now, worker_id := none }

/-- `dlq_retry` (`cli.py:186`): look the job up; unless it exists and is
`dead`, report an error (`false`) and change nothing; otherwise upsert
the reset row.  Returns (success flag, table). -/
def dlq_retry (job_id : String) (now : ℚ) (s : Store) : Bool × Store :=
  match get_job job_id s with
  | none => (false, s)
  | some row =>
    if row.state == JState.dead then
      (true, upsert_job (dlqReset now row) s)
    else
      (false, s)

/-- `backoff_delay` (`worker.py:22`): `float(base) ** int(attempts)`,
falling back to `2.0 ** attempts` only when the conversion or the power
raises.  `none` models the raising case; a parsed float — positive or
not — is `some b`. -/
def backoff_delay (base : Option ℚ) (attempts : Nat) : ℚ :=
  match base with
  | some b => b ^ attempts
  | none => 2 ^ attempts

/-- The wall clock at the top of a worker cycle.  `worker_loop` polls
(`time.sleep(poll_interval)`) while nothing is ready, so real time
advances to the earliest `next_run_at` of a `pending`/`failed` row (and
never runs backwards); the model jumps there directly. -/
def wakeTime (now : ℚ) (s : Store) : ℚ :=
  match (s.filter (fun j => j.state == JState.pending || j.state == JState.failed)).map
      Job.next_run_at with
  | [] => now
  | t :: ts => max now (ts.foldl min t)

/-- One-worker execution of `worker_loop` (`worker.py:30`) against a
store, driven for `fuel` cycles.  `exec n` is the exit code
`run_command` returns for the `n`-th execution (the executor is an
external collaborator); `err` is the (truncated) stderr the worker
passes on failure; `base` is the parsed `backoff_base`.  Each cycle:
claim at the wake-up time; if no row is ready even after waiting
(nothing claimable will ever become ready), stop — the real loop would
sleep forever; on `rc == 0` finalize with `mark_completed`; otherwise
increment the claimed row's `attempts` and finalize with
`mark_failed_or_dead` scheduling `now + backoff_delay base attempts`.
Returns the final store and the number of command executions. -/
def runWorker (exec : Nat → Int) (wid : String) (base : Option ℚ) (err : String) :
    Nat → ℚ → Store → Nat → Store × Nat
  | 0, _, s, cnt => (s, cnt)
  | fuel + 1, now, s, cnt =>
    let t := wakeTime now s
    match fetch_and_lock_next_job t wid s with
    | (none, s1) => (s1, cnt)
    | (some j, s1) =>
      if exec cnt = 0 then
        runWorker exec wid base err fuel t (mark_completed j.id t s1) (cnt + 1)
      else
        let attempts := j.attempts + 1
        let nr := t + backoff_delay base attempts
        runWorker exec wid base err fuel t
          (mark_failed_or_dead j.id attempts j.max_retries err nr t s1) (cnt + 1)

/-- Engine state for the interleaving semantics: the durable `jobs`
table plus the claim-time snapshots currently held by workers between
their `fetch_and_lock_next_job` and the matching finalization
(`worker_loop` keeps the claimed row dictionary `job` in a local and
finalizes from it, not from the table). -/
structure EState where
  store : Store
  held : List Job
deriving DecidableEq

/-- A successful claim hands its returned row to the claiming worker. -/
def pushHeld : Option Job → List Job → List Job
  | none, h => h
  | some j, h => j :: h

/-- One engine operation, as the program actually issues it: `enqueue`
(always a fresh pending row, `cli.py:65`); a claim, whose returned row
becomes a held snapshot; the two finalizations, which `worker_loop`
runs with a SNAPSHOT it holds — `mark_completed(snap.id)` and
`mark_failed_or_dead(snap.id, snap.attempts + 1, snap.max_retries, …)`
are unguarded `UPDATE … WHERE id=?` statements, so they fire even if an
admin operation rewrote the row after the claim —; `dlq_retry`; and
`recover_processing` (run at every worker startup, also while other
workers hold rows). -/
inductive Step : EState → EState → Prop where
  | enqueue (id command : String) (mr : Nat) (pr : Int) (now : ℚ) (e : EState) :
      Step e ⟨upsert_job (enqueueJob id command mr pr now) e.store, e.held⟩
  | claim (now : ℚ) (wid : String) (e : EState) :
      Step e ⟨(fetch_and_lock_next_job now wid e.store).2,
              pushHeld (fetch_and_lock_next_job now wid e.store).1 e.held⟩
  | complete (snap : Job) (now : ℚ) (e : EState) (hs : snap ∈ e.held) :
      Step e ⟨mark_completed snap.id now e.store, e.held.erase snap⟩
  | fail (snap : Job) (err : String) (nr now : ℚ) (e : EState) (hs : snap ∈ e.held) :
      Step e ⟨mark_failed_or_dead snap.id (snap.attempts + 1) snap.max_retries
                err nr now e.store,
              e.held.erase snap⟩
  | dlq (id : String) (now : ℚ) (e : EState) :
      Step e ⟨(dlq_retry id now e.store).2, e.held⟩
  | recover (now : ℚ) (e : EState) :
      Step e ⟨recover_processing now e.store, e.held⟩

/-- Engine states reachable from the empty table by engine
operations. -/
inductive Reachable : EState → Prop where
  | nil : Reachable ⟨[], []⟩
  | step {e e' : EState} : Reachable e → Step e e' → Reachable e'

/-- The fresh-finalization sub-relation: identical to `Step`, except
that a finalization requires the worker's held snapshot to still be the
current row of the table — no `enqueue` or `dlq_retry` rewrote the job
between its claim and its finalization.  Every `worker_loop` cycle in a
history without such races is of this shape. -/
inductive StepF : EState → EState → Prop where
  | enqueue (id command : String) (mr : Nat) (pr : Int) (now : ℚ) (e : EState) :
      StepF e ⟨upsert_job (enqueueJob id command mr pr now) e.store, e.held⟩
  | claim (now : ℚ) (wid : String) (e : EState) :
      StepF e ⟨(fetch_and_lock_next_job now wid e.store).2,
               pushHeld (fetch_and_lock_next_job now wid e.store).1 e.held⟩
  | complete (snap : Job) (now : ℚ) (e : EState) (hs : snap ∈ e.held)
      (hcur : snap ∈ e.store) :
      StepF e ⟨mark_completed snap.id now e.store, e.held.erase snap⟩
  | fail (snap : Job) (err : String) (nr now : ℚ) (e : EState) (hs : snap ∈ e.held)
      (hcur : snap ∈ e.store) :
      StepF e ⟨mark_failed_or_dead snap.id (snap.attempts + 1) snap.max_retries
                 err nr now e.store,
               e.held.erase snap⟩
  | dlq (id : String) (now : ℚ) (e : EState) :
      StepF e ⟨(dlq_retry id now e.store).2, e.held⟩
  | recover (now : ℚ) (e : EState) :
      StepF e ⟨recover_processing now e.store, e.held⟩

/-- Engine states reachable by race-free histories (every finalization
fresh). -/
inductive ReachableF : EState → Prop where
  | nil : ReachableF ⟨[], []⟩
  | step {e e' : EState} : ReachableF e → StepF e e' → ReachableF e'

/-! ## Helper lemmas -/

/-- The PRIMARY KEY constraint: two rows of a table with no duplicate
ids that share an id are the same row. -/
lemma eq_of_same_id {s : Store} (hnd : (s.map Job.id).Nodup) {a b : Job}
    (ha : a ∈ s) (hb : b ∈ s) (hid : a.id = b.id) : a = b := by
  induction s with
  | nil => cases ha
  | cons x xs ih =>
    simp only [List.map_cons, List.nodup_cons] at hnd
    rcases List.mem_cons.1 ha with ha1 | ha1 <;> rcases List.mem_cons.1 hb with hb1 | hb1
    · rw [ha1, hb1]
    · exfalso
      apply hnd.1
      have : b.id ∈ xs.map Job.id := List.mem_map_of_mem Job.id hb1
      rwa [← hid, ha1] at this
    · exfalso
      apply hnd.1
      have : a.id ∈ xs.map Job.id := List.mem_map_of_mem Job.id ha1
      rwa [hid, hb1] at this
    · exact ih hnd.2 ha1 hb1

/-- `get_job` finds the (unique) row holding a present id. -/
lemma get_job_eq {s : Store} (hnd : (s.map Job.id).Nodup) {j : Job}
    (hj : j ∈ s) (id : String) (hid : j.id = id) : get_job id s = some j := by
  induction s with
  | nil => cases hj
  | cons x xs ih =>
    simp only [List.map_cons, List.nodup_cons] at hnd
    rcases List.mem_cons.1 hj with rfl | hj
    · simp [get_job, List.find?, hid]
    · have hx : (x.id == id) = false := by
        simp only [beq_eq_false_iff_ne, ne_eq]
        intro h
        exact hnd.1 (h.trans hid.symm ▸ List.mem_map_of_mem Job.id hj)
      simpa [get_job, List.find?, hx] using ih hnd.2 hj

/-- `get_job` returning a row means the row is in the table with that id. -/
lemma get_job_mem {s : Store} {id : String} {j : Job}
    (h : get_job id s = some j) : j ∈ s ∧ j.id = id := by
  refine ⟨List.mem_of_find?_eq_some h, ?_⟩
  have := List.find?_some h
  simpa using this

/-- A conflicting upsert keeps rows with other ids untouched. -/
lemma upsert_mem_other {job : Job} {s : Store} {x : Job}
    (hx : x ∈ s) (hne : x.id ≠ job.id) : x ∈ upsert_job job s := by
  unfold upsert_job
  split
  · have hb : (x.id == job.id) = false := by simpa using hne
    exact List.mem_map.2 ⟨x, hx, by simp [hb]⟩
  · exact List.mem_append_left _ hx

/-- A conflicting upsert rewrites the row with the conflicting id to the
supplied values, except `created_at`, which the `DO UPDATE` list omits. -/
lemma upsert_mem_updated {job : Job} {s : Store} {j : Job}
    (hj : j ∈ s) (hid : j.id = job.id) :
    { job with created_at := j.created_at } ∈ upsert_job job s := by
  unfold upsert_job
  have hany : s.any (fun x => x.id == job.id) = true :=
    List.any_eq_true.2 ⟨j, hj, by simpa using hid⟩
  rw [if_pos hany]
  have hb : (j.id == job.id) = true := by simpa using hid
  exact List.mem_map.2 ⟨j, hj, by simp [hb]⟩

/-- `claimBefore` as an order proposition. -/
lemma claimBefore_eq_true_iff (a b : Job) : claimBefore a b = true ↔
    b.priority < a.priority ∨ (a.priority = b.priority ∧
      (a.next_run_at < b.next_run_at ∨
        (a.next_run_at = b.next_run_at ∧ a.created_at < b.created_at))) := by
  simp [claimBefore]

/-- The claim order is irreflexive. -/
lemma claimBefore_irrefl (a : Job) : claimBefore a a = false := by
  simp [claimBefore]

/-- The claim order is transitive. -/
lemma claimBefore_trans {a b c : Job} (h1 : claimBefore a b = true)
    (h2 : claimBefore b c = true) : claimBefore a c = true := by
  rw [claimBefore_eq_true_iff] at h1 h2 ⊢
  rcases h1 with h1 | ⟨hp1, h1⟩ <;> rcases h2 with h2 | ⟨hp2, h2⟩
  · exact Or.inl (h2.trans h1)
  · exact Or.inl (hp2 ▸ h1)
  · rw [hp1]; exact Or.inl h2
  · refine Or.inr ⟨hp1.trans hp2, ?_⟩
    rcases h1 with h1 | ⟨he1, h1⟩ <;> rcases h2 with h2 | ⟨he2, h2⟩
    · exact Or.inl (h1.trans h2)
    · exact Or.inl (he2 ▸ h1)
    · rw [he1]; exact Or.inl h2
    · exact Or.inr ⟨he1.trans he2, h1.trans h2⟩

/-- Incomparability chains: if `a` does not sort before `b` and `b` does
not sort before `c`, then `a` does not sort before `c`. -/
lemma claimBefore_neg_trans {a b c : Job} (h1 : claimBefore a b = false)
    (h2 : claimBefore b c = false) : claimBefore a c = false := by
  rw [← Bool.not_eq_true, claimBefore_eq_true_iff] at h1 h2 ⊢
  push_neg at h1 h2 ⊢
  obtain ⟨hp1, h1⟩ := h1
  obtain ⟨hp2, h2⟩ := h2
  refine ⟨hp1.trans hp2, ?_⟩
  intro hac
  have hab : a.priority = b.priority := le_antisymm hp1 (hac ▸ hp2)
  have hbc : b.priority = c.priority := hab ▸ hac
  obtain ⟨hn1, h1⟩ := h1 hab
  obtain ⟨hn2, h2⟩ := h2 hbc
  refine ⟨hn2.trans hn1, ?_⟩
  intro hnac
  have hnab : a.next_run_at = b.next_run_at := le_antisymm (hnac ▸ hn2) hn1
  have hnbc : b.next_run_at = c.next_run_at := hnab ▸ hnac
  exact le_trans (h2 hnbc) (h1 hnab)

/-- What `pickBest` returns starting from a seed candidate: a row that
is the seed or a list element, with nothing in the list (nor the seed)
sorting strictly before it. -/
lemma pickBest_some_spec : ∀ (l : List Job) (b : Job),
    ∃ m, pickBest (some b) l = some m ∧ (m = b ∨ m ∈ l) ∧
      claimBefore b m = false ∧ ∀ x ∈ l, claimBefore x m = false := by
  intro l
  induction l with
  | nil =>
    intro b
    exact ⟨b, rfl, Or.inl rfl, claimBefore_irrefl b, by simp⟩
  | cons j rest ih =>
    intro b
    by_cases hjb : claimBefore j b = true
    · obtain ⟨m, hm, hmem, hbm, hall⟩ := ih j
      refine ⟨m, ?_, ?_, ?_, ?_⟩
      · simpa [pickBest, hjb] using hm
      · rcases hmem with rfl | hmem
        · exact Or.inr (List.mem_cons_self _ _)
        · exact Or.inr (List.mem_cons_of_mem _ hmem)
      · rcases hcb : claimBefore b m with h | h
        · rfl
        · exact absurd (claimBefore_trans hjb hcb) (by simp [hbm])
      · intro x hx
        rcases List.mem_cons.1 hx with rfl | hx
        · exact hbm
        · exact hall x hx
    · have hjb' : claimBefore j b = false := by
        cases h : claimBefore j b
        · rfl
        · exact absurd h hjb
      obtain ⟨m, hm, hmem, hbm, hall⟩ := ih b
      refine ⟨m, ?_, ?_, hbm, ?_⟩
      · simpa [pickBest, hjb'] using hm
      · rcases hmem with rfl | hmem
        · exact Or.inl rfl
        · exact Or.inr (List.mem_cons_of_mem _ hmem)
      · intro x hx
        rcases List.mem_cons.1 hx with rfl | hx
        · exact claimBefore_neg_trans hjb' hbm
        · exact hall x hx

/-- `pickBest` from an empty seed returns a minimal element of the
list. -/
lemma pickBest_none_some {l : List Job} {m : Job}
    (h : pickBest none l = some m) :
    m ∈ l ∧ ∀ x ∈ l, claimBefore x m = false := by
  cases l with
  | nil => cases h
  | cons j rest =>
    obtain ⟨m', hm', hmem, hbm, hall⟩ := pickBest_some_spec rest j
    have : pickBest none (j :: rest) = some m' := by simpa [pickBest] using hm'
    rw [this] at h
    cases h
    constructor
    · rcases hmem with rfl | hmem
      · exact List.mem_cons_self _ _
      · exact List.mem_cons_of_mem _ hmem
    · intro x hx
      rcases List.mem_cons.1 hx with rfl | hx
      · exact hbm
      · exact hall x hx

/-- `pickBest` from an empty seed returns `none` only on the empty
list. -/
lemma pickBest_none_none {l : List Job} (h : pickBest none l = none) :
    l = [] := by
  cases l with
  | nil => rfl
  | cons j rest =>
    obtain ⟨m, hm, -, -, -⟩ := pickBest_some_spec rest j
    have : pickBest none (j :: rest) = some m := by simpa [pickBest] using hm
    rw [this] at h
    cases h

/-- A ready row is `pending` or `failed` and already due. -/
lemma isReady_iff {now : ℚ} {j : Job} : isReady now j = true ↔
    (j.state = .pending ∨ j.state = .failed) ∧ j.next_run_at ≤ now := by
  cases h : j.state <;> simp [isReady, h]

/-- An empty claim leaves the table unchanged and happens exactly when
no row is ready. -/
lemma fetch_none_spec {now : ℚ} {wid : String} {s : Store}
    (h : (fetch_and_lock_next_job now wid s).1 = none) :
    (∀ j ∈ s, isReady now j = false) ∧ (fetch_and_lock_next_job now wid s).2 = s := by
  unfold fetch_and_lock_next_job at h ⊢
  cases hp : pickBest none (s.filter (isReady now)) with
  | some m => rw [hp] at h; simp at h
  | none =>
    have hnil := pickBest_none_none hp
    refine ⟨?_, rfl⟩
    intro j hj
    cases hr : isReady now j
    · rfl
    · exact absurd (hnil ▸ List.mem_filter.2 ⟨hj, hr⟩) (List.not_mem_nil j)

/-- A successful claim: the returned row is a ready row of the table,
minimal in the claim order among all ready rows, rewritten to
`processing` under the claiming worker; the table update touches
exactly the rows carrying its id. -/
lemma fetch_some_spec {now : ℚ} {wid : String} {s : Store} {j1 : Job}
    (h : (fetch_and_lock_next_job now wid s).1 = some j1) :
    ∃ j ∈ s, isReady now j = true ∧
      (∀ r ∈ s, isReady now r = true → claimBefore r j = false) ∧
      j1 = claimUpdate now wid j ∧
      (fetch_and_lock_next_job now wid s).2 =
        s.map (fun x => if x.id == j.id then claimUpdate now wid x else x) := by
  unfold fetch_and_lock_next_job at h ⊢
  cases hp : pickBest none (s.filter (isReady now)) with
  | none => rw [hp] at h; simp at h
  | some m =>
    rw [hp] at h
    simp only [Option.some.injEq] at h
    obtain ⟨hmem, hall⟩ := pickBest_none_some hp
    obtain ⟨hms, hmr⟩ := List.mem_filter.1 hmem
    exact ⟨m, hms, hmr,
      fun r hr hrr => hall r (List.mem_filter.2 ⟨hr, hrr⟩), h.symm, rfl⟩

/-- On a table with the PRIMARY KEY constraint, two rows of the table
with the same id are the same row, so a claim never returns the id of a
row that is not ready. -/
lemma fetch_some_ne_of_not_ready {now : ℚ} {wid : String} {s : Store} {j1 : Job}
    (hnd : (s.map Job.id).Nodup)
    (h : (fetch_and_lock_next_job now wid s).1 = some j1)
    {j : Job} (hj : j ∈ s) (hnr : isReady now j = false) : j1.id ≠ j.id := by
  obtain ⟨x, hx, hready, -, hj1, -⟩ := fetch_some_spec h
  intro he
  have hxid : x.id = j.id := by
    have : j1.id = x.id := by rw [hj1]; rfl
    rw [← this, he]
  have : x = j := eq_of_same_id hnd hx hj hxid
  rw [this] at hready
  rw [hready] at hnr
  cases hnr

/-- On a table whose (unique) row with `id` is a dead row `j`,
`dlq_retry` succeeds and upserts the reset row. -/
lemma dlq_retry_success {s : Store} {id : String} {now : ℚ} {j : Job}
    (hnd : (s.map Job.id).Nodup) (hj : j ∈ s) (hid : j.id = id)
    (hdead : j.state = .dead) :
    dlq_retry id now s = (true, upsert_job (dlqReset now j) s) := by
  unfold dlq_retry
  rw [get_job_eq hnd hj id hid]
  simp [hdead]

/-- The reset row is in the table after a successful `dlq_retry`
rewrite (`dlqReset` keeps `created_at`, so the conflicting upsert stores
it verbatim). -/
lemma dlqReset_mem_upsert {s : Store} {now : ℚ} {j : Job} (hj : j ∈ s) :
    dlqReset now j ∈ upsert_job (dlqReset now j) s := by
  have h := upsert_mem_updated hj (show j.id = (dlqReset now j).id from rfl)
  simpa using h

/-- A claim on a single-row table whose row is ready: the row is moved
to `processing` and returned. -/
lemma fetch_singleton_ready {j : Job} (hs : j.state = .pending ∨ j.state = .failed)
    (now : ℚ) (wid : String) (hdue : j.next_run_at ≤ now) :
    fetch_and_lock_next_job now wid [j] =
      (some (claimUpdate now wid j), [claimUpdate now wid j]) := by
  have hr : isReady now j = true := isReady_iff.2 ⟨hs, hdue⟩
  unfold fetch_and_lock_next_job
  simp [hr, pickBest]

/-- A table with no `pending`/`failed` row yields no claim at any
time. -/
lemma fetch_none_of_no_ready {now : ℚ} {wid : String} {s : Store}
    (h : ∀ j ∈ s, isReady now j = false) :
    fetch_and_lock_next_job now wid s = (none, s) := by
  unfold fetch_and_lock_next_job
  have : s.filter (isReady now) = [] := by
    rw [List.filter_eq_nil_iff]
    intro j hj
    simp [h j hj]
  rw [this]
  rfl

/-- The worker sleeping: with no `pending`/`failed` row in the table the
loop never claims anything and the table never changes, whatever the
fuel. -/
lemma runWorker_stuck {exec : Nat → Int} {wid err : String} {base : Option ℚ}
    {s : Store} (h : ∀ j ∈ s, j.state ≠ .pending ∧ j.state ≠ .failed) :
    ∀ (fuel : Nat) (now : ℚ) (cnt : Nat),
      runWorker exec wid base err fuel now s cnt = (s, cnt) := by
  intro fuel now cnt
  cases fuel with
  | zero => rfl
  | succ f =>
    have hno : ∀ (t : ℚ), ∀ j ∈ s, isReady t j = false := by
      intro t j hj
      cases hr : isReady t j
      · rfl
      · rcases (isReady_iff.1 hr).1 with hs1 | hs1
        · exact absurd hs1 (h j hj).1
        · exact absurd hs1 (h j hj).2
    simp only [runWorker]
    rw [fetch_none_of_no_ready (hno _)]

/-- The waiting time on a single `pending`/`failed` row: the worker
polls until the row is due. -/
lemma wakeTime_singleton {j : Job} (hs : j.state = .pending ∨ j.state = .failed)
    (now : ℚ) : wakeTime now [j] = max now j.next_run_at := by
  unfold wakeTime
  rcases hs with h | h <;> simp [h]

/-- One failing cycle at the retry cap: claim, execute (non-zero exit),
finalize dead. -/
lemma runWorker_cycle_fail_dead {wid err : String} {base : Option ℚ} {j : Job}
    (hs : j.state = .pending ∨ j.state = .failed)
    (hcap : j.max_retries ≤ j.attempts + 1) (fuel : Nat) (now : ℚ) (cnt : Nat) :
    runWorker (fun _ => 1) wid base err (fuel + 1) now [j] cnt =
      runWorker (fun _ => 1) wid base err fuel (max now j.next_run_at)
        [{ j with
            state := .dead, attempts := j.attempts + 1, last_error := some err,
            updated_at := max now j.next_run_at, worker_id := none }] (cnt + 1) := by
  simp only [runWorker]
  rw [wakeTime_singleton hs, fetch_singleton_ready hs _ wid (le_max_right _ _)]
  simp only [claimUpdate, mark_failed_or_dead]
  rw [if_neg (by omega : ¬ (1 : Int) = 0), if_pos hcap]
  simp

/-- One failing cycle below the retry cap: claim, execute (non-zero
exit), finalize failed with the backoff-scheduled `next_run_at`. -/
lemma runWorker_cycle_fail_retry {wid err : String} {base : Option ℚ} {j : Job}
    (hs : j.state = .pending ∨ j.state = .failed)
    (hcap : j.attempts + 1 < j.max_retries) (fuel : Nat) (now : ℚ) (cnt : Nat) :
    runWorker (fun _ => 1) wid base err (fuel + 1) now [j] cnt =
      runWorker (fun _ => 1) wid base err fuel (max now j.next_run_at)
        [{ j with
            state := .failed, attempts := j.attempts + 1, last_error := some err,
            next_run_at := max now j.next_run_at + backoff_delay base (j.attempts + 1),
            updated_at := max now j.next_run_at, worker_id := none }] (cnt + 1) := by
  simp only [runWorker]
  rw [wakeTime_singleton hs, fetch_singleton_ready hs _ wid (le_max_right _ _)]
  simp only [claimUpdate, mark_failed_or_dead]
  rw [if_neg (by omega : ¬ (1 : Int) = 0), if_neg (by omega : ¬ j.max_retries ≤ j.attempts + 1)]
  simp

/-- One succeeding cycle: claim, execute (exit 0), finalize
completed. -/
lemma runWorker_cycle_success {wid err : String} {base : Option ℚ} {j : Job}
    (hs : j.state = .pending ∨ j.state = .failed) (fuel : Nat) (now : ℚ) (cnt : Nat) :
    runWorker (fun _ => 0) wid base err (fuel + 1) now [j] cnt =
      runWorker (fun _ => 0) wid base err fuel (max now j.next_run_at)
        [{ j with
            state := .completed, updated_at := max now j.next_run_at,
            worker_id := none }] (cnt + 1) := by
  simp only [runWorker]
  rw [wakeTime_singleton hs, fetch_singleton_ready hs _ wid (le_max_right _ _)]
  simp only [claimUpdate, mark_completed]
  simp

/-- The deterministically failing run: a `pending`/`failed` job `d`
failures away from its cap is executed `d` more times and ends dead
with `attempts = max_retries`, whatever extra fuel the loop is given. -/
lemma runWorker_fail_run (wid err : String) (base : Option ℚ) (k : Nat) :
    ∀ (d : Nat) (j : Job) (now : ℚ) (cnt extra : Nat),
      (j.state = .pending ∨ j.state = .failed) → j.max_retries = k →
      j.attempts + d = k → 1 ≤ d →
      ∃ jf : Job,
        runWorker (fun _ => 1) wid base err (d + 1 + extra) now [j] cnt = ([jf], cnt + d) ∧
        jf.state = .dead ∧ jf.attempts = k := by
  intro d
  induction d with
  | zero => intro j now cnt extra _ _ _ h1; omega
  | succ e ih =>
    intro j now cnt extra hs hmr hat _
    by_cases he : e = 0
    · subst he
      have hcap : j.max_retries ≤ j.attempts + 1 := by omega
      have heq : 0 + 1 + 1 + extra = (1 + extra) + 1 := by omega
      rw [heq, runWorker_cycle_fail_dead hs hcap]
      rw [runWorker_stuck (by simp) (1 + extra) _ _]
      exact ⟨_, rfl, rfl, by simp; omega⟩
    · have hcap : j.attempts + 1 < j.max_retries := by omega
      have heq : e + 1 + 1 + extra = (e + 1 + extra) + 1 := by omega
      rw [heq, runWorker_cycle_fail_retry hs hcap]
      obtain ⟨jf, hrun, hst, hatt⟩ := ih
        { j with
            state := .failed, attempts := j.attempts + 1, last_error := some err,
            next_run_at := max now j.next_run_at + backoff_delay base (j.attempts + 1),
            updated_at := max now j.next_run_at, worker_id := none }
        (max now j.next_run_at) (cnt + 1) extra (Or.inr rfl) hmr (by simp; omega) (by omega)
      refine ⟨jf, ?_, hst, hatt⟩
      rw [hrun]
      congr 1
      omega

/-- The deterministically succeeding run: a `pending`/`failed` job is
executed once and ends completed with its attempt counter untouched. -/
lemma runWorker_success_run (wid err : String) (base : Option ℚ) (j : Job)
    (hs : j.state = .pending ∨ j.state = .failed) (now : ℚ) (cnt extra : Nat) :
    ∃ jc : Job,
      runWorker (fun _ => 0) wid base err (1 + 1 + extra) now [j] cnt = ([jc], cnt + 1) ∧
      jc.state = .completed ∧ jc.attempts = j.attempts := by
  have heq : 1 + 1 + extra = (1 + extra) + 1 := by omega
  rw [heq, runWorker_cycle_success hs]
  rw [runWorker_stuck (by simp) (1 + extra) _ _]
  exact ⟨_, rfl, rfl, rfl⟩

/-- The inductive per-row invariant of the engine: a `pending` row has a
fresh counter (enqueue and DLQ retry both write 0); a `processing` or
`failed` row has a counter strictly below its cap unless it is fresh (a
claim preserves the counter, a retrying failure writes `attempts <
max_retries`, orphan recovery preserves the counter); a terminal row's
counter is at most `max(max_retries, 1)` and its worker is released. -/
def Inv (j : Job) : Prop :=
  (j.state = .pending → j.attempts = 0) ∧
  ((j.state = .processing ∨ j.state = .failed) →
    (j.attempts = 0 ∨ j.attempts < j.max_retries)) ∧
  ((j.state = .completed ∨ j.state = .dead) → j.attempts ≤ max j.max_retries 1) ∧
  ((j.state = .completed ∨ j.state = .dead) → j.worker_id = none)

/-- Well-formed table: the PRIMARY KEY constraint plus the per-row
invariant. -/
def WF (s : Store) : Prop := (s.map Job.id).Nodup ∧ ∀ j ∈ s, Inv j

/-- Rewriting rows in place never disturbs the id column. -/
lemma nodup_map_of_id_preserved {s : Store} {f : Job → Job}
    (hf : ∀ j, (f j).id = j.id) (h : (s.map Job.id).Nodup) :
    ((s.map f).map Job.id).Nodup := by
  rw [List.map_map, show Job.id ∘ f = Job.id from funext hf]
  exact h

/-- `upsert_job` keeps the id column duplicate-free. -/
lemma upsert_nodup {job : Job} {s : Store} (h : (s.map Job.id).Nodup) :
    ((upsert_job job s).map Job.id).Nodup := by
  unfold upsert_job
  split
  · refine nodup_map_of_id_preserved ?_ h
    intro j
    split
    · next hb => exact (eq_of_beq hb).symm
    · rfl
  · next hany =>
    rw [List.map_append]
    simp only [List.map_cons, List.map_nil]
    rw [List.nodup_append]
    refine ⟨h, List.nodup_singleton _, ?_⟩
    intro x hx
    obtain ⟨y, hy, hyx⟩ := List.mem_map.1 hx
    simp only [List.mem_singleton]
    intro he
    refine hany (List.any_eq_true.2 ⟨y, hy, beq_iff_eq.mpr ?_⟩)
    rw [hyx, he]

/-- `upsert_job` preserves the table invariant when the supplied row
satisfies it (`Inv` does not look at `created_at`). -/
lemma upsert_WF {job : Job} {s : Store} (h : WF s) (hjob : Inv job) :
    WF (upsert_job job s) := by
  refine ⟨upsert_nodup h.1, ?_⟩
  intro x hx
  unfold upsert_job at hx
  split at hx
  · obtain ⟨y, hy, hyx⟩ := List.mem_map.1 hx
    rw [← hyx]
    split
    · exact hjob
    · exact h.2 y hy
  · rcases List.mem_append.1 hx with hx | hx
    · exact h.2 x hx
    · rw [List.mem_singleton.1 hx]
      exact hjob

/-- A freshly enqueued row satisfies the invariant. -/
lemma inv_enqueueJob (id cmd : String) (mr : Nat) (pr : Int) (now : ℚ) :
    Inv (enqueueJob id cmd mr pr now) := by
  refine ⟨?_, ?_, ?_, ?_⟩ <;> simp [enqueueJob]

/-- A DLQ reset row satisfies the invariant. -/
lemma inv_dlqReset (now : ℚ) (j : Job) : Inv (dlqReset now j) := by
  refine ⟨?_, ?_, ?_, ?_⟩ <;> simp [dlqReset]

/-- The unconditional per-row invariant: the only writers of `pending`
(enqueue, DLQ reset) write `attempts = 0`, and every writer of a
terminal state nulls `worker_id` in the same UPDATE — this survives
even a finalization acting on a stale snapshot, because the UPDATEs set
these columns unconditionally. -/
def InvB (j : Job) : Prop :=
  (j.state = .pending → j.attempts = 0) ∧
  ((j.state = .completed ∨ j.state = .dead) → j.worker_id = none)

/-- Basic well-formedness, preserved by every interleaving. -/
def WB (e : EState) : Prop :=
  (e.store.map Job.id).Nodup ∧ ∀ j ∈ e.store, InvB j

/-- Full well-formedness for race-free histories: the table invariant
plus the claim-time bound carried by every held snapshot. -/
def WFE (e : EState) : Prop :=
  (e.store.map Job.id).Nodup ∧ (∀ j ∈ e.store, Inv j) ∧
  ∀ snap ∈ e.held, snap.attempts = 0 ∨ snap.attempts < snap.max_retries

/-- Pointwise `InvB` across an upsert. -/
lemma upsert_forall_invB {job : Job} {s : Store}
    (h : ∀ j ∈ s, InvB j) (hjob : InvB job) :
    ∀ x ∈ upsert_job job s, InvB x := by
  intro x hx
  unfold upsert_job at hx
  split at hx
  · obtain ⟨y, hy, hyx⟩ := List.mem_map.1 hx
    rw [← hyx]
    split
    · exact hjob
    · exact h y hy
  · rcases List.mem_append.1 hx with hx | hx
    · exact h x hx
    · rw [List.mem_singleton.1 hx]
      exact hjob

/-- A freshly enqueued row satisfies the basic invariant. -/
lemma invB_enqueueJob (id cmd : String) (mr : Nat) (pr : Int) (now : ℚ) :
    InvB (enqueueJob id cmd mr pr now) :=
  ⟨fun _ => rfl, fun hc => by rcases hc with hc | hc <;> simp [enqueueJob] at hc⟩

/-- A DLQ reset row satisfies the basic invariant. -/
lemma invB_dlqReset (now : ℚ) (j : Job) : InvB (dlqReset now j) :=
  ⟨fun _ => rfl, fun hc => by rcases hc with hc | hc <;> simp [dlqReset] at hc⟩

/-- Every engine operation — stale finalizations included — preserves
the basic invariant. -/
lemma Step_preserves_WB {e e' : EState} (h : WB e) (hst : Step e e') : WB e' := by
  cases hst with
  | enqueue id cmd mr pr now e =>
    exact ⟨upsert_nodup h.1, upsert_forall_invB h.2 (invB_enqueueJob id cmd mr pr now)⟩
  | claim now wid e =>
    cases hp : (fetch_and_lock_next_job now wid e.store).1 with
    | none =>
      refine ⟨?_, ?_⟩
      · show (((fetch_and_lock_next_job now wid e.store).2).map Job.id).Nodup
        rw [(fetch_none_spec hp).2]
        exact h.1
      · show ∀ j ∈ (fetch_and_lock_next_job now wid e.store).2, InvB j
        rw [(fetch_none_spec hp).2]
        exact h.2
    | some j1 =>
      obtain ⟨sel, hsel, hready, -, -, hupd⟩ := fetch_some_spec hp
      refine ⟨?_, ?_⟩
      · show (((fetch_and_lock_next_job now wid e.store).2).map Job.id).Nodup
        rw [hupd]
        exact nodup_map_of_id_preserved (fun j => by split <;> rfl) h.1
      · show ∀ j ∈ (fetch_and_lock_next_job now wid e.store).2, InvB j
        rw [hupd]
        intro x hx
        obtain ⟨y, hy, hyx⟩ := List.mem_map.1 hx
        rw [← hyx]
        split
        · exact ⟨fun hc => by simp [claimUpdate] at hc,
            fun hc => by rcases hc with hc | hc <;> simp [claimUpdate] at hc⟩
        · exact h.2 y hy
  | complete snap now e hs =>
    refine ⟨nodup_map_of_id_preserved (fun x => by split <;> rfl) h.1, ?_⟩
    intro x hx
    obtain ⟨y, hy, hyx⟩ := List.mem_map.1 hx
    rw [← hyx]
    split
    · exact ⟨fun hc => by simp at hc, fun _ => rfl⟩
    · exact h.2 y hy
  | fail snap err nr now e hs =>
    show WB ⟨mark_failed_or_dead snap.id (snap.attempts + 1) snap.max_retries
      err nr now e.store, e.held.erase snap⟩
    unfold mark_failed_or_dead
    split
    · refine ⟨nodup_map_of_id_preserved (fun x => by split <;> rfl) h.1, ?_⟩
      intro x hx
      obtain ⟨y, hy, hyx⟩ := List.mem_map.1 hx
      rw [← hyx]
      split
      · exact ⟨fun hc => by simp at hc, fun _ => rfl⟩
      · exact h.2 y hy
    · refine ⟨nodup_map_of_id_preserved (fun x => by split <;> rfl) h.1, ?_⟩
      intro x hx
      obtain ⟨y, hy, hyx⟩ := List.mem_map.1 hx
      rw [← hyx]
      split
      · exact ⟨fun hc => by simp at hc,
          fun hc => by rcases hc with hc | hc <;> simp at hc⟩
      · exact h.2 y hy
  | dlq id now e =>
    cases hg : get_job id e.store with
    | none =>
      have he : dlq_retry id now e.store = (false, e.store) := by
        unfold dlq_retry; rw [hg]
      refine ⟨?_, ?_⟩
      · show (((dlq_retry id now e.store).2).map Job.id).Nodup
        rw [he]
        exact h.1
      · show ∀ j ∈ (dlq_retry id now e.store).2, InvB j
        rw [he]
        exact h.2
    | some row =>
      by_cases hd : row.state = .dead
      · have he : dlq_retry id now e.store = (true, upsert_job (dlqReset now row) e.store) := by
          unfold dlq_retry; rw [hg]; simp [hd]
        refine ⟨?_, ?_⟩
        · show (((dlq_retry id now e.store).2).map Job.id).Nodup
          rw [he]
          exact upsert_nodup h.1
        · show ∀ j ∈ (dlq_retry id now e.store).2, InvB j
          rw [he]
          exact upsert_forall_invB h.2 (invB_dlqReset now row)
      · have he : dlq_retry id now e.store = (false, e.store) := by
          unfold dlq_retry; rw [hg]; simp [hd]
        refine ⟨?_, ?_⟩
        · show (((dlq_retry id now e.store).2).map Job.id).Nodup
          rw [he]
          exact h.1
        · show ∀ j ∈ (dlq_retry id now e.store).2, InvB j
          rw [he]
          exact h.2
  | recover now e =>
    refine ⟨nodup_map_of_id_preserved (fun x => by split <;> rfl) h.1, ?_⟩
    intro x hx
    obtain ⟨y, hy, hyx⟩ := List.mem_map.1 hx
    rw [← hyx]
    split
    · exact ⟨fun hc => by simp at hc,
        fun hc => by rcases hc with hc | hc <;> simp at hc⟩
    · exact h.2 y hy

/-- Every reachable engine state is basically well-formed. -/
lemma Reachable_WB {e : EState} (h : Reachable e) : WB e := by
  induction h with
  | nil => exact ⟨List.nodup_nil, by simp⟩
  | step _ hst ih => exact Step_preserves_WB ih hst

/-- Every race-free engine operation preserves full well-formedness. -/
lemma StepF_preserves_WFE {e e' : EState} (h : WFE e) (hst : StepF e e') : WFE e' := by
  cases hst with
  | enqueue id cmd mr pr now e =>
    have hwf := upsert_WF ⟨h.1, h.2.1⟩ (inv_enqueueJob id cmd mr pr now)
    exact ⟨hwf.1, hwf.2, h.2.2⟩
  | claim now wid e =>
    cases hp : (fetch_and_lock_next_job now wid e.store).1 with
    | none =>
      refine ⟨?_, ?_, ?_⟩
      · show (((fetch_and_lock_next_job now wid e.store).2).map Job.id).Nodup
        rw [(fetch_none_spec hp).2]
        exact h.1
      · show ∀ j ∈ (fetch_and_lock_next_job now wid e.store).2, Inv j
        rw [(fetch_none_spec hp).2]
        exact h.2.1
      · exact h.2.2
    | some j1 =>
      obtain ⟨sel, hsel, hready, -, hj1, hupd⟩ := fetch_some_spec hp
      refine ⟨?_, ?_, ?_⟩
      · show (((fetch_and_lock_next_job now wid e.store).2).map Job.id).Nodup
        rw [hupd]
        exact nodup_map_of_id_preserved (fun j => by split <;> rfl) h.1
      · show ∀ j ∈ (fetch_and_lock_next_job now wid e.store).2, Inv j
        rw [hupd]
        intro x hx
        obtain ⟨y, hy, hyx⟩ := List.mem_map.1 hx
        rw [← hyx]
        split
        · next hb =>
          have hy_eq : y = sel := eq_of_same_id h.1 hy hsel (eq_of_beq hb)
          obtain ⟨hinv1, hinv2, -, -⟩ := h.2.1 y hy
          refine ⟨fun hc => by simp [claimUpdate] at hc, fun _ => ?_,
            fun hc => by rcases hc with hc | hc <;> simp [claimUpdate] at hc,
            fun hc => by rcases hc with hc | hc <;> simp [claimUpdate] at hc⟩
          show y.attempts = 0 ∨ y.attempts < y.max_retries
          rw [hy_eq] at hinv1 hinv2 ⊢
          rcases (isReady_iff.1 hready).1 with hs1 | hs1
          · exact Or.inl (hinv1 hs1)
          · exact hinv2 (Or.inr hs1)
        · exact h.2.1 y hy
      · show ∀ snap ∈ j1 :: e.held,
          snap.attempts = 0 ∨ snap.attempts < snap.max_retries
        intro snap hsnap
        rcases List.mem_cons.1 hsnap with rfl | hsnap
        · rw [hj1]
          obtain ⟨hinv1, hinv2, -, -⟩ := h.2.1 sel hsel
          show sel.attempts = 0 ∨ sel.attempts < sel.max_retries
          rcases (isReady_iff.1 hready).1 with hs1 | hs1
          · exact Or.inl (hinv1 hs1)
          · exact hinv2 (Or.inr hs1)
        · exact h.2.2 snap hsnap
  | complete snap now e hs hcur =>
    have hdisj := h.2.2 snap hs
    refine ⟨nodup_map_of_id_preserved (fun x => by split <;> rfl) h.1, ?_, ?_⟩
    · intro x hx
      obtain ⟨y, hy, hyx⟩ := List.mem_map.1 hx
      rw [← hyx]
      split
      · next hb =>
        have hy_eq : y = snap := eq_of_same_id h.1 hy hcur (eq_of_beq hb)
        refine ⟨fun hc => by simp at hc,
          fun hc => by rcases hc with hc | hc <;> simp at hc,
          fun _ => ?_, fun _ => rfl⟩
        show y.attempts ≤ max y.max_retries 1
        rw [hy_eq]
        rcases hdisj with h0 | hlt
        · rw [h0]; exact Nat.zero_le _
        · exact le_trans (le_of_lt hlt) (le_max_left _ _)
      · exact h.2.1 y hy
    · intro x hx
      exact h.2.2 x (List.mem_of_mem_erase hx)
  | fail snap err nr now e hs hcur =>
    have hdisj := h.2.2 snap hs
    show WFE ⟨mark_failed_or_dead snap.id (snap.attempts + 1) snap.max_retries
      err nr now e.store, e.held.erase snap⟩
    have herase : ∀ x ∈ e.held.erase snap,
        x.attempts = 0 ∨ x.attempts < x.max_retries :=
      fun x hx => h.2.2 x (List.mem_of_mem_erase hx)
    unfold mark_failed_or_dead
    split
    · next hcap =>
      refine ⟨nodup_map_of_id_preserved (fun x => by split <;> rfl) h.1, ?_, herase⟩
      intro x hx
      obtain ⟨y, hy, hyx⟩ := List.mem_map.1 hx
      rw [← hyx]
      split
      · next hb =>
        have hy_eq : y = snap := eq_of_same_id h.1 hy hcur (eq_of_beq hb)
        refine ⟨fun hc => by simp at hc,
          fun hc => by rcases hc with hc | hc <;> simp at hc,
          fun _ => ?_, fun _ => rfl⟩
        show snap.attempts + 1 ≤ max y.max_retries 1
        rw [hy_eq]
        rcases hdisj with h0 | hlt
        · rw [h0]; exact le_max_right _ _
        · exact le_trans hlt (le_max_left _ _)
      · exact h.2.1 y hy
    · next hcap =>
      refine ⟨nodup_map_of_id_preserved (fun x => by split <;> rfl) h.1, ?_, herase⟩
      intro x hx
      obtain ⟨y, hy, hyx⟩ := List.mem_map.1 hx
      rw [← hyx]
      split
      · next hb =>
        have hy_eq : y = snap := eq_of_same_id h.1 hy hcur (eq_of_beq hb)
        refine ⟨fun hc => by simp at hc, fun _ => ?_,
          fun hc => by rcases hc with hc | hc <;> simp at hc,
          fun hc => by rcases hc with hc | hc <;> simp at hc⟩
        show snap.attempts + 1 = 0 ∨ snap.attempts + 1 < y.max_retries
        rw [hy_eq]
        omega
      · exact h.2.1 y hy
  | dlq id now e =>
    cases hg : get_job id e.store with
    | none =>
      have he : dlq_retry id now e.store = (false, e.store) := by
        unfold dlq_retry; rw [hg]
      refine ⟨?_, ?_, h.2.2⟩
      · show (((dlq_retry id now e.store).2).map Job.id).Nodup
        rw [he]
        exact h.1
      · show ∀ j ∈ (dlq_retry id now e.store).2, Inv j
        rw [he]
        exact h.2.1
    | some row =>
      by_cases hd : row.state = .dead
      · have he : dlq_retry id now e.store = (true, upsert_job (dlqReset now row) e.store) := by
          unfold dlq_retry; rw [hg]; simp [hd]
        have hwf := upsert_WF ⟨h.1, h.2.1⟩ (inv_dlqReset now row)
        refine ⟨?_, ?_, h.2.2⟩
        · show (((dlq_retry id now e.store).2).map Job.id).Nodup
          rw [he]
          exact hwf.1
        · show ∀ j ∈ (dlq_retry id now e.store).2, Inv j
          rw [he]
          exact hwf.2
      · have he : dlq_retry id now e.store = (false, e.store) := by
          unfold dlq_retry; rw [hg]; simp [hd]
        refine ⟨?_, ?_, h.2.2⟩
        · show (((dlq_retry id now e.store).2).map Job.id).Nodup
          rw [he]
          exact h.1
        · show ∀ j ∈ (dlq_retry id now e.store).2, Inv j
          rw [he]
          exact h.2.1
  | recover now e =>
    refine ⟨nodup_map_of_id_preserved (fun x => by split <;> rfl) h.1, ?_, h.2.2⟩
    intro x hx
    obtain ⟨y, hy, hyx⟩ := List.mem_map.1 hx
    rw [← hyx]
    split
    · next hb =>
      obtain ⟨-, hinv2, -, -⟩ := h.2.1 y hy
      have hproc : y.state = .processing := eq_of_beq hb
      refine ⟨fun hc => by simp at hc, fun _ => ?_,
        fun hc => by rcases hc with hc | hc <;> simp at hc,
        fun hc => by rcases hc with hc | hc <;> simp at hc⟩
      show y.attempts = 0 ∨ y.attempts < y.max_retries
      exact hinv2 (Or.inl hproc)
    · exact h.2.1 y hy

/-- Every state reachable by a race-free history is fully
well-formed. -/
lemma ReachableF_WFE {e : EState} (h : ReachableF e) : WFE e := by
  induction h with
  | nil => exact ⟨List.nodup_nil, by simp, by simp⟩
  | step _ hst ih => exact StepF_preserves_WFE ih hst

/-! ## Claims -/

/-- C1: `fetch_and_lock_next_job` selects among rows with state in
`{pending, failed}` and `next_run_at ≤ now` a first row of the order
`(priority DESC, next_run_at ASC, created_at ASC)` (no ready row sorts
strictly before it); if no such row exists it returns empty and leaves
every row unchanged; otherwise it updates exactly that row to
`state=processing, worker_id=W, updated_at=now` and returns the updated
row. -/
theorem C1_claim_next_protocol (now : ℚ) (wid : String) (s : Store) :
    ((fetch_and_lock_next_job now wid s).1 = none →
      (∀ j ∈ s, isReady now j = false) ∧
      (fetch_and_lock_next_job now wid s).2 = s) ∧
    (∀ j1, (fetch_and_lock_next_job now wid s).1 = some j1 →
      ∃ j ∈ s, isReady now j = true ∧
        (∀ r ∈ s, isReady now r = true → claimBefore r j = false) ∧
        j1 = { j with state := .processing, worker_id := some wid, updated_at := now } ∧
        (fetch_and_lock_next_job now wid s).2 =
          s.map (fun x => if x.id == j.id then
            { x with state := .processing, worker_id := some wid, updated_at := now }
          else x) ∧
        ∀ r ∈ s, r.id ≠ j.id → r ∈ (fetch_and_lock_next_job now wid s).2) := by
  constructor
  · exact fetch_none_spec
  · intro j1 h
    obtain ⟨j, hj, hready, hmin, hj1, hupd⟩ := fetch_some_spec h
    refine ⟨j, hj, hready, hmin, hj1, hupd, ?_⟩
    intro r hr hne
    rw [hupd]
    have hb : (r.id == j.id) = false := by simpa using hne
    exact List.mem_map.2 ⟨r, hr, by simp [hb, claimUpdate]⟩

/-- Witness for C1: with a due priority-0 job `"a"` and a due
priority-5 job `"b"`, the claim returns `"b"` moved to `processing`
under `"w"`, and `"a"` is untouched. -/
theorem C1_claim_next_witness :
    ∃ j ∈ [enqueueJob "a" "x" 3 0 0, enqueueJob "b" "y" 3 5 0],
      isReady 1 j = true ∧
      (∀ r ∈ [enqueueJob "a" "x" 3 0 0, enqueueJob "b" "y" 3 5 0],
        isReady 1 r = true → claimBefore r j = false) ∧
      claimUpdate 1 "w" (enqueueJob "b" "y" 3 5 0) =
        { j with state := .processing, worker_id := some "w", updated_at := 1 } ∧
      (fetch_and_lock_next_job 1 "w"
          [enqueueJob "a" "x" 3 0 0, enqueueJob "b" "y" 3 5 0]).2 =
        [enqueueJob "a" "x" 3 0 0, enqueueJob "b" "y" 3 5 0].map
          (fun x => if x.id == j.id then
            { x with state := .processing, worker_id := some "w", updated_at := 1 }
          else x) ∧
      ∀ r ∈ [enqueueJob "a" "x" 3 0 0, enqueueJob "b" "y" 3 5 0], r.id ≠ j.id →
        r ∈ (fetch_and_lock_next_job 1 "w"
          [enqueueJob "a" "x" 3 0 0, enqueueJob "b" "y" 3 5 0]).2 :=
  (C1_claim_next_protocol 1 "w" [enqueueJob "a" "x" 3 0 0, enqueueJob "b" "y" 3 5 0]).2
    (claimUpdate 1 "w" (enqueueJob "b" "y" 3 5 0)) (by decide)

/-- C2: claims are serialised by the store write lock (`BEGIN
IMMEDIATE`), so concurrent claims are interleavings of atomic claims;
while a row is in `processing` under some worker, no claim — by any
worker, at any time — returns that row's id, because the selection
filter only admits `pending`/`failed` rows.  Hence at most one worker's
`claim_next` returns a given job until the holder finalizes it. -/
theorem C2_processing_never_reclaimed (s : Store)
    (hnd : (s.map Job.id).Nodup) (j : Job) (hj : j ∈ s)
    (hp : j.state = .processing) (now : ℚ) (wid : String) (r : Job)
    (h : (fetch_and_lock_next_job now wid s).1 = some r) : r.id ≠ j.id := by
  refine fetch_some_ne_of_not_ready hnd h hj ?_
  cases hr : isReady now j
  · rfl
  · rw [isReady_iff] at hr
    rcases hr.1 with hs | hs <;> rw [hp] at hs <;> cases hs

/-- Witness for C2: with `"p"` held in `processing` by `"w1"`, a claim
by `"w2"` returns the pending row `"q"`, not `"p"`. -/
theorem C2_processing_never_reclaimed_witness :
    (claimUpdate 5 "w2" (enqueueJob "q" "c" 3 0 0)).id ≠
      ({ enqueueJob "p" "c" 3 0 0 with
          state := JState.processing, worker_id := some "w1" } : Job).id :=
  C2_processing_never_reclaimed
    [{ enqueueJob "p" "c" 3 0 0 with
        state := JState.processing, worker_id := some "w1" },
      enqueueJob "q" "c" 3 0 0]
    (by decide)
    { enqueueJob "p" "c" 3 0 0 with
        state := JState.processing, worker_id := some "w1" }
    (by simp) rfl 5 "w2" (claimUpdate 5 "w2" (enqueueJob "q" "c" 3 0 0)) (by decide)

/-- C4 (amended): for `k ≥ 1`, a job enqueued with `max_retries = k`
under a deterministically failing executor is executed exactly `k`
times (whatever extra polling fuel the loop gets) and ends dead with
`attempts = k`; under a deterministically succeeding executor it is
executed exactly once and ends completed.  For `k = 0` the failing
executor still yields ONE execution (see
`C4_zero_retries_counterexample`), not zero as the claim implies. -/
theorem C4_retry_counts (k : Nat) (hk : 1 ≤ k) (id cmd wid err : String)
    (base : Option ℚ) (pr : Int) (t0 : ℚ) (extra : Nat) :
    (runWorker (fun _ => 1) wid base err (k + 1 + extra) t0
        [enqueueJob id cmd k pr t0] 0).2 = k ∧
    (∀ j ∈ (runWorker (fun _ => 1) wid base err (k + 1 + extra) t0
        [enqueueJob id cmd k pr t0] 0).1,
      j.state = .dead ∧ j.attempts = k) ∧
    (runWorker (fun _ => 0) wid base err (2 + extra) t0
        [enqueueJob id cmd k pr t0] 0).2 = 1 ∧
    (∀ j ∈ (runWorker (fun _ => 0) wid base err (2 + extra) t0
        [enqueueJob id cmd k pr t0] 0).1,
      j.state = .completed) := by
  obtain ⟨jf, hrunf, hstf, hattf⟩ :=
    runWorker_fail_run wid err base k
      k (enqueueJob id cmd k pr t0) t0 0 extra (Or.inl rfl) rfl (by simp [enqueueJob]) hk
  obtain ⟨jc, hrunc, hstc, -⟩ :=
    runWorker_success_run wid err base
      (enqueueJob id cmd k pr t0) (Or.inl rfl) t0 0 extra
  refine ⟨?_, ?_, ?_, ?_⟩
  · rw [hrunf]; omega
  · intro j hj
    rw [hrunf] at hj
    rcases List.mem_singleton.1 hj with rfl
    exact ⟨hstf, hattf⟩
  · rw [show 2 + extra = 1 + 1 + extra by omega, hrunc]
  · intro j hj
    rw [show 2 + extra = 1 + 1 + extra by omega, hrunc] at hj
    rcases List.mem_singleton.1 hj with rfl
    exact hstc

/-- Witness for C4 (amended): `max_retries = 2` with a failing executor
gives two executions and a dead row; a succeeding executor gives one
execution and a completed row. -/
theorem C4_retry_counts_witness :
    (runWorker (fun _ => 1) "w" (some 2) "e" 3 0 [enqueueJob "a" "false" 2 0 0] 0).2 = 2 ∧
    (∀ j ∈ (runWorker (fun _ => 1) "w" (some 2) "e" 3 0 [enqueueJob "a" "false" 2 0 0] 0).1,
      j.state = .dead ∧ j.attempts = 2) ∧
    (runWorker (fun _ => 0) "w" (some 2) "e" 2 0 [enqueueJob "a" "false" 2 0 0] 0).2 = 1 ∧
    (∀ j ∈ (runWorker (fun _ => 0) "w" (some 2) "e" 2 0 [enqueueJob "a" "false" 2 0 0] 0).1,
      j.state = .completed) :=
  C4_retry_counts 2 (by decide) "a" "false" "w" "e" (some 2) 0 0 0

/-- Counterexample for C4: with `max_retries = 0` and the failing
executor, the command is executed once — not the zero times the claim's
"exactly k times" requires — and the job dies with `attempts = 1`. -/
theorem C4_zero_retries_counterexample :
    (runWorker (fun _ => 1) "w" (some 2) "e" 2 0 [enqueueJob "a" "false" 0 0 0] 0).2 = 1 ∧
    (runWorker (fun _ => 1) "w" (some 2) "e" 2 0 [enqueueJob "a" "false" 0 0 0] 0).2 ≠ 0 ∧
    (∀ j ∈ (runWorker (fun _ => 1) "w" (some 2) "e" 2 0 [enqueueJob "a" "false" 0 0 0] 0).1,
      j.state = .dead ∧ j.attempts = 1) := by decide

/-- The race-free trace refuting the claim even without interference:
enqueue `"a"` with `max_retries = 0`, claim it, fail it once — the row
is dead with `attempts = 1`. -/
def zeroCapStore : Store :=
  mark_failed_or_dead "a" 1 0 "e" 1 1
    ((fetch_and_lock_next_job 0 "w" (upsert_job (enqueueJob "a" "c" 0 0 0) [])).2)

/-- The racing trace, after: enqueue `"a"` with `max_retries = 2`, one
claim-and-fail cycle (stored `attempts = 1`), and a second claim — the
worker now holds the snapshot `raceSnap`. -/
def raceClaimedStore : Store :=
  (fetch_and_lock_next_job 1 "wA"
    (mark_failed_or_dead "a" 1 2 "e" 1 1
      ((fetch_and_lock_next_job 0 "wA" (upsert_job (enqueueJob "a" "c" 2 0 0) [])).2))).2

/-- The claim-time snapshot (`attempts = 1, max_retries = 2`) held by
the worker in the racing trace. -/
def raceSnap : Job :=
  claimUpdate 1 "wA"
    { enqueueJob "a" "c" 2 0 0 with
        state := .failed, attempts := 1, last_error := some "e",
        next_run_at := 1, updated_at := 1, worker_id := none }

/-- Final store of the racing trace: while the worker holds `raceSnap`,
an admin re-enqueues `"a"` with `max_retries = 0` (the row becomes
`pending, attempts = 0, max_retries = 0`); the worker's finalization —
`mark_failed_or_dead("a", 2, 2, …)`, an unguarded UPDATE — then writes
`dead, attempts = 2` onto the `max_retries = 0` row. -/
def raceFinalStore : Store :=
  mark_failed_or_dead "a" 2 2 "e" 9 9
    (upsert_job (enqueueJob "a" "c" 0 0 8) raceClaimedStore)

/-- C5 (amended): every reachable row has `0 ≤ attempts` (by
construction — the engine only writes 0 or an increment) and every
`pending` row has `attempts = 0`, under arbitrary interleavings.  The
bound `attempts ≤ max(max_retries, 1)` — hence `attempts ≤ max_retries`
whenever `max_retries ≥ 1` — holds for every race-free history, one in
which no `enqueue`/`dlq_retry` rewrites a job between its claim and the
matching finalization.  Unconditionally the claim fails twice over: a
race-free `max_retries = 0` run dies with `attempts = 1 > 0`, and a
re-enqueue racing a held snapshot beats even the weakened bound (see
`C5_zero_cap_counterexample`). -/
theorem C5_attempts_bounded (e : EState) :
    (Reachable e → ∀ j ∈ e.store, j.state = .pending → j.attempts = 0) ∧
    (ReachableF e → ∀ j ∈ e.store,
      j.attempts ≤ max j.max_retries 1 ∧
      (1 ≤ j.max_retries → j.attempts ≤ j.max_retries)) := by
  constructor
  · intro hr j hj hp
    exact ((Reachable_WB hr).2 j hj).1 hp
  · intro hr j hj
    obtain ⟨hinv1, hinv2, hinv3, -⟩ := (ReachableF_WFE hr).2.1 j hj
    have hb : j.attempts ≤ max j.max_retries 1 := by
      cases hst : j.state with
      | pending => rw [hinv1 hst]; exact Nat.zero_le _
      | processing =>
        rcases hinv2 (Or.inl hst) with h0 | hlt
        · rw [h0]; exact Nat.zero_le _
        · exact le_trans (le_of_lt hlt) (le_max_left _ _)
      | failed =>
        rcases hinv2 (Or.inr hst) with h0 | hlt
        · rw [h0]; exact Nat.zero_le _
        · exact le_trans (le_of_lt hlt) (le_max_left _ _)
      | completed => exact hinv3 (Or.inl hst)
      | dead => exact hinv3 (Or.inr hst)
    refine ⟨hb, fun hm => ?_⟩
    rwa [Nat.max_eq_left hm] at hb

/-- Witness for C5 (amended): both parts at the state reached by one
enqueue. -/
theorem C5_attempts_bounded_witness :
    (enqueueJob "a" "c" 3 0 0).attempts = 0 ∧
    (enqueueJob "a" "c" 3 0 0).attempts ≤ max (enqueueJob "a" "c" 3 0 0).max_retries 1 ∧
    (1 ≤ (enqueueJob "a" "c" 3 0 0).max_retries →
      (enqueueJob "a" "c" 3 0 0).attempts ≤ (enqueueJob "a" "c" 3 0 0).max_retries) := by
  have hR : Reachable ⟨upsert_job (enqueueJob "a" "c" 3 0 0) [], []⟩ :=
    Reachable.step Reachable.nil (Step.enqueue "a" "c" 3 0 0 ⟨[], []⟩)
  have hF : ReachableF ⟨upsert_job (enqueueJob "a" "c" 3 0 0) [], []⟩ :=
    ReachableF.step ReachableF.nil (StepF.enqueue "a" "c" 3 0 0 ⟨[], []⟩)
  exact ⟨(C5_attempts_bounded ⟨upsert_job (enqueueJob "a" "c" 3 0 0) [], []⟩).1 hR
      (enqueueJob "a" "c" 3 0 0) (by decide) rfl,
    (C5_attempts_bounded ⟨upsert_job (enqueueJob "a" "c" 3 0 0) [], []⟩).2 hF
      (enqueueJob "a" "c" 3 0 0) (by decide)⟩

/-- Counterexample for C5: (a) even race-free, the `max_retries = 0`
job is claimed once and dies with `attempts = 1 > 0 = max_retries`;
(b) with an admin re-enqueue (`max_retries = 0`) racing a worker that
holds the job with snapshot `(attempts 1, max_retries 2)`, the stale
finalization leaves a dead row with `attempts = 2 >
max(max_retries, 1) = 1` — the engine-faithful interleaving the
race-free proviso of the amendment excludes. -/
theorem C5_zero_cap_counterexample :
    (ReachableF ⟨zeroCapStore, []⟩ ∧
      ∃ j ∈ zeroCapStore, j.max_retries < j.attempts) ∧
    (Reachable ⟨raceFinalStore, []⟩ ∧
      ∃ j ∈ raceFinalStore, max j.max_retries 1 < j.attempts) := by
  refine ⟨⟨?_, by decide⟩, ⟨?_, by decide⟩⟩
  · have h1 : ReachableF ⟨upsert_job (enqueueJob "a" "c" 0 0 0) [], []⟩ :=
      ReachableF.step ReachableF.nil (StepF.enqueue "a" "c" 0 0 0 ⟨[], []⟩)
    have h2 : ReachableF
        ⟨(fetch_and_lock_next_job 0 "w" (upsert_job (enqueueJob "a" "c" 0 0 0) [])).2,
         pushHeld (fetch_and_lock_next_job 0 "w"
           (upsert_job (enqueueJob "a" "c" 0 0 0) [])).1 []⟩ :=
      ReachableF.step h1 (StepF.claim 0 "w" ⟨upsert_job (enqueueJob "a" "c" 0 0 0) [], []⟩)
    exact ReachableF.step h2
      (StepF.fail (claimUpdate 0 "w" (enqueueJob "a" "c" 0 0 0)) "e" 1 1 _
        (by decide) (by decide))
  · have g1 : Reachable ⟨upsert_job (enqueueJob "a" "c" 2 0 0) [], []⟩ :=
      Reachable.step Reachable.nil (Step.enqueue "a" "c" 2 0 0 ⟨[], []⟩)
    have g2 : Reachable
        ⟨(fetch_and_lock_next_job 0 "wA" (upsert_job (enqueueJob "a" "c" 2 0 0) [])).2,
         pushHeld (fetch_and_lock_next_job 0 "wA"
           (upsert_job (enqueueJob "a" "c" 2 0 0) [])).1 []⟩ :=
      Reachable.step g1 (Step.claim 0 "wA" ⟨upsert_job (enqueueJob "a" "c" 2 0 0) [], []⟩)
    have g3 : Reachable
        ⟨mark_failed_or_dead "a" 1 2 "e" 1 1
          ((fetch_and_lock_next_job 0 "wA" (upsert_job (enqueueJob "a" "c" 2 0 0) [])).2),
         []⟩ :=
      Reachable.step g2
        (Step.fail (claimUpdate 0 "wA" (enqueueJob "a" "c" 2 0 0)) "e" 1 1 _ (by decide))
    have g4 : Reachable ⟨raceClaimedStore, [raceSnap]⟩ :=
      Reachable.step g3 (Step.claim 1 "wA" _)
    have g5 : Reachable
        ⟨upsert_job (enqueueJob "a" "c" 0 0 8) raceClaimedStore, [raceSnap]⟩ :=
      Reachable.step g4 (Step.enqueue "a" "c" 0 0 8 ⟨raceClaimedStore, [raceSnap]⟩)
    exact Reachable.step g5 (Step.fail raceSnap "e" 9 9 _ (by decide))

/-- Store with the dead row `"a"`: enqueued with `max_retries = 1`,
claimed, failed once (race-free). -/
def deadStore : Store :=
  mark_failed_or_dead "a" 1 1 "e" 1 1
    ((fetch_and_lock_next_job 0 "w" (upsert_job (enqueueJob "a" "c" 1 0 0) [])).2)

/-- Worker A's claim-time snapshot in the stale-completion trace. -/
def staleSnap : Job := claimUpdate 0 "wA" (enqueueJob "a" "c" 1 0 0)

/-- The stale-completion trace after worker B's startup
`recover_processing` rewrote A's live `processing` row to `failed`
(while A still holds `staleSnap`). -/
def orphanStore : Store :=
  recover_processing 1
    ((fetch_and_lock_next_job 0 "wA" (upsert_job (enqueueJob "a" "c" 1 0 0) [])).2)

/-- Worker B's snapshot after re-claiming the recovered row. -/
def reclaimSnap : Job :=
  claimUpdate 1 "wB"
    { enqueueJob "a" "c" 1 0 0 with
        state := .failed, next_run_at := 1, worker_id := none, updated_at := 1 }

/-- The stale-completion trace after B failed the job at its cap: the
row is `dead, attempts = 1` while A still holds `staleSnap`. -/
def staleDeadStore : Store :=
  mark_failed_or_dead "a" 1 1 "e" 9 2 ((fetch_and_lock_next_job 1 "wB" orphanStore).2)

/-- C9 (amended): every reachable `completed` or `dead` row has
`worker_id = null` (each UPDATE writing a terminal state also nulls
`worker_id`), and it is left untouched by every claim, by
`recover_processing`, and by finalizations carrying any other job id.
But terminal states are not terminal under the engine: `dlq_retry`
rewrites a dead row to `pending` by design, re-enqueue overwrites any
row, and a finalization from a stale snapshot of the SAME id — the
UPDATEs have no state guard — can rewrite a dead row, e.g. to
`completed` (see `C9_dlq_resurrects_counterexample`). -/
theorem C9_terminal_rows (e : EState) (he : Reachable e) :
    ∀ j ∈ e.store, (j.state = .completed ∨ j.state = .dead) →
      j.worker_id = none ∧
      (∀ now wid, j ∈ (fetch_and_lock_next_job now wid e.store).2) ∧
      (∀ now, j ∈ recover_processing now e.store) ∧
      (∀ id2, id2 ≠ j.id →
        (∀ now, j ∈ mark_completed id2 now e.store) ∧
        (∀ (a m : Nat) (err : String) (nr now : ℚ),
          j ∈ mark_failed_or_dead id2 a m err nr now e.store)) := by
  intro j hj hterm
  have hwb := Reachable_WB he
  refine ⟨(hwb.2 j hj).2 hterm, ?_, ?_, ?_⟩
  · intro now wid
    cases hp : (fetch_and_lock_next_job now wid e.store).1 with
    | none => rw [(fetch_none_spec hp).2]; exact hj
    | some j1 =>
      obtain ⟨sel, hsel, hready, -, -, hupd⟩ := fetch_some_spec hp
      rw [hupd]
      have hne : (j.id == sel.id) = false := by
        simp only [beq_eq_false_iff_ne, ne_eq]
        intro he2
        have hsj : sel = j := eq_of_same_id hwb.1 hsel hj he2.symm
        rw [hsj] at hready
        rcases (isReady_iff.1 hready).1 with hs1 | hs1 <;>
          rcases hterm with ht | ht <;> rw [ht] at hs1 <;> cases hs1
      exact List.mem_map.2 ⟨j, hj, by simp [hne]⟩
  · intro now
    have hb : (j.state == JState.processing) = false := by
      simp only [beq_eq_false_iff_ne, ne_eq]
      intro he2
      rcases hterm with ht | ht <;> rw [ht] at he2 <;> cases he2
    unfold recover_processing
    exact List.mem_map.2 ⟨j, hj, by simp [hb]⟩
  · intro id2 hid2
    have hne : (j.id == id2) = false := by
      simp only [beq_eq_false_iff_ne, ne_eq]
      intro he2
      exact hid2 he2.symm
    constructor
    · intro now
      unfold mark_completed
      exact List.mem_map.2 ⟨j, hj, by simp [hne]⟩
    · intro a m err nr now
      unfold mark_failed_or_dead
      split <;> exact List.mem_map.2 ⟨j, hj, by simp [hne]⟩

/-- Witness for C9 (amended): the dead row of `deadStore` has no
worker, survives a fresh claim attempt, and survives a completion of
the unrelated id `"b"`. -/
theorem C9_terminal_rows_witness :
    ∃ j ∈ deadStore, j.state = JState.dead ∧ j.worker_id = none ∧
      j ∈ (fetch_and_lock_next_job 2 "w2" deadStore).2 ∧
      j ∈ mark_completed "b" 3 deadStore := by
  have h1 : Reachable ⟨upsert_job (enqueueJob "a" "c" 1 0 0) [], []⟩ :=
    Reachable.step Reachable.nil (Step.enqueue "a" "c" 1 0 0 ⟨[], []⟩)
  have h2 : Reachable
      ⟨(fetch_and_lock_next_job 0 "w" (upsert_job (enqueueJob "a" "c" 1 0 0) [])).2,
       pushHeld (fetch_and_lock_next_job 0 "w"
         (upsert_job (enqueueJob "a" "c" 1 0 0) [])).1 []⟩ :=
    Reachable.step h1 (Step.claim 0 "w" ⟨upsert_job (enqueueJob "a" "c" 1 0 0) [], []⟩)
  have h3 : Reachable ⟨deadStore, []⟩ :=
    Reachable.step h2
      (Step.fail (claimUpdate 0 "w" (enqueueJob "a" "c" 1 0 0)) "e" 1 1 _ (by decide))
  obtain ⟨j, hj, hjs, hjid⟩ :
      ∃ j ∈ deadStore, j.state = JState.dead ∧ j.id = "a" := by decide
  obtain ⟨hwid, hclaim, -, hmark⟩ :=
    C9_terminal_rows ⟨deadStore, []⟩ h3 j hj (Or.inr hjs)
  exact ⟨j, hj, hjs, hwid, hclaim 2 "w2", (hmark "b" (by rw [hjid]; decide)).1 3⟩

/-- Counterexample for C9: two engine operations that change a terminal
row's state.  (a) `dlq_retry` turns the dead row of `deadStore` back to
`pending`.  (b) A worker-side finalization does it too: worker A claims
`"a"`, worker B's startup `recover_processing` rewrites A's live row to
`failed`, B re-claims and kills it at the cap (`dead`), and A's
`mark_completed("a")` — an UPDATE with no state guard, carrying A's
stale snapshot id — rewrites the dead row to `completed`. -/
theorem C9_dlq_resurrects_counterexample :
    (Reachable ⟨deadStore, []⟩ ∧
      Step ⟨deadStore, []⟩ ⟨(dlq_retry "a" 5 deadStore).2, []⟩ ∧
      (∃ j ∈ deadStore, j.id = "a" ∧ j.state = JState.dead) ∧
      (∃ j ∈ (dlq_retry "a" 5 deadStore).2, j.id = "a" ∧ j.state = JState.pending)) ∧
    (Reachable ⟨staleDeadStore, [staleSnap]⟩ ∧
      Step ⟨staleDeadStore, [staleSnap]⟩ ⟨mark_completed "a" 3 staleDeadStore, []⟩ ∧
      (∃ j ∈ staleDeadStore, j.id = "a" ∧ j.state = JState.dead) ∧
      (∃ j ∈ mark_completed "a" 3 staleDeadStore,
        j.id = "a" ∧ j.state = JState.completed)) := by
  refine ⟨⟨?_, Step.dlq "a" 5 ⟨deadStore, []⟩, by decide, by decide⟩,
          ⟨?_, Step.complete staleSnap 3 ⟨staleDeadStore, [staleSnap]⟩ (by decide),
           by decide, by decide⟩⟩
  · have h1 : Reachable ⟨upsert_job (enqueueJob "a" "c" 1 0 0) [], []⟩ :=
      Reachable.step Reachable.nil (Step.enqueue "a" "c" 1 0 0 ⟨[], []⟩)
    have h2 : Reachable
        ⟨(fetch_and_lock_next_job 0 "w" (upsert_job (enqueueJob "a" "c" 1 0 0) [])).2,
         pushHeld (fetch_and_lock_next_job 0 "w"
           (upsert_job (enqueueJob "a" "c" 1 0 0) [])).1 []⟩ :=
      Reachable.step h1 (Step.claim 0 "w" ⟨upsert_job (enqueueJob "a" "c" 1 0 0) [], []⟩)
    exact Reachable.step h2
      (Step.fail (claimUpdate 0 "w" (enqueueJob "a" "c" 1 0 0)) "e" 1 1 _ (by decide))
  · have k1 : Reachable ⟨upsert_job (enqueueJob "a" "c" 1 0 0) [], []⟩ :=
      Reachable.step Reachable.nil (Step.enqueue "a" "c" 1 0 0 ⟨[], []⟩)
    have k2 : Reachable
        ⟨(fetch_and_lock_next_job 0 "wA" (upsert_job (enqueueJob "a" "c" 1 0 0) [])).2,
         [staleSnap]⟩ :=
      Reachable.step k1 (Step.claim 0 "wA" ⟨upsert_job (enqueueJob "a" "c" 1 0 0) [], []⟩)
    have k3 : Reachable ⟨orphanStore, [staleSnap]⟩ :=
      Reachable.step k2 (Step.recover 1 _)
    have k4 : Reachable
        ⟨(fetch_and_lock_next_job 1 "wB" orphanStore).2, [reclaimSnap, staleSnap]⟩ :=
      Reachable.step k3 (Step.claim 1 "wB" ⟨orphanStore, [staleSnap]⟩)
    exact Reachable.step k4 (Step.fail reclaimSnap "e" 9 2 _ (by decide))

/-- C3: `mark_failed_or_dead(id, attempts, max_retries, last_error,
next_run_at)` writes the row with that id to `state=dead` with the
supplied `attempts` and `last_error` and `worker_id=null` when
`attempts ≥ max_retries` (equality included), and otherwise writes it to
`state=failed` with the supplied `attempts`, `last_error`, `next_run_at`
and `worker_id=null`; rows with other ids are untouched. -/
theorem C3_mark_failed_or_dead (job_id : String) (a m : Nat) (err : String)
    (nr now : ℚ) (s : Store) :
    (∀ j ∈ s, j.id ≠ job_id → j ∈ mark_failed_or_dead job_id a m err nr now s) ∧
    (∀ j ∈ s, j.id = job_id →
      (m ≤ a →
        { j with state := .dead, attempts := a, last_error := some err,
                 updated_at := now, worker_id := none }
          ∈ mark_failed_or_dead job_id a m err nr now s) ∧
      (a < m →
        { j with state := .failed, attempts := a, last_error := some err,
                 next_run_at := nr, updated_at := now, worker_id := none }
          ∈ mark_failed_or_dead job_id a m err nr now s)) := by
  constructor
  · intro j hj hne
    have hb : (j.id == job_id) = false := by simpa using hne
    unfold mark_failed_or_dead
    split <;> exact List.mem_map.2 ⟨j, hj, by simp [hb]⟩
  · intro j hj hid
    have hb : (j.id == job_id) = true := by simpa using hid
    constructor
    · intro hm
      unfold mark_failed_or_dead
      rw [if_pos hm]
      exact List.mem_map.2 ⟨j, hj, by simp [hb]⟩
    · intro hm
      unfold mark_failed_or_dead
      rw [if_neg (by omega)]
      exact List.mem_map.2 ⟨j, hj, by simp [hb]⟩

/-- Witness for C3: at `attempts = max_retries = 2` the row goes dead;
at `attempts = 1 < max_retries = 9` it goes failed with the supplied
`next_run_at`. -/
theorem C3_mark_failed_or_dead_witness :
    { enqueueJob "a" "c" 2 0 0 with
        state := JState.dead, attempts := 2,
        last_error := some "e", updated_at := 6, worker_id := none }
      ∈ mark_failed_or_dead "a" 2 2 "e" 5 6 [enqueueJob "a" "c" 2 0 0] ∧
    { enqueueJob "b" "c" 9 0 0 with
        state := JState.failed, attempts := 1,
        last_error := some "e", next_run_at := 5, updated_at := 6, worker_id := none }
      ∈ mark_failed_or_dead "b" 1 9 "e" 5 6 [enqueueJob "b" "c" 9 0 0] := by
  constructor
  · exact ((C3_mark_failed_or_dead "a" 2 2 "e" 5 6 [enqueueJob "a" "c" 2 0 0]).2
      (enqueueJob "a" "c" 2 0 0) (by simp) rfl).1 (by decide)
  · exact ((C3_mark_failed_or_dead "b" 1 9 "e" 5 6 [enqueueJob "b" "c" 9 0 0]).2
      (enqueueJob "b" "c" 9 0 0) (by simp) rfl).2 (by decide)

/-- C6 (amended): `backoff_delay` returns `base ** attempts` for every
base the float conversion accepts — positive or not — and falls back to
`2.0 ** attempts` exactly when the conversion (or the power) raises,
modelled by the `none` argument.  The claim's reading that every
non-positive base takes the fallback is refuted by
`C6_backoff_negative_base_counterexample`. -/
theorem C6_backoff_delay_eq (b : ℚ) (a : Nat) :
    backoff_delay (some b) a = b ^ a ∧ backoff_delay none a = 2 ^ a :=
  ⟨rfl, rfl⟩

/-- Counterexample for C6: the base `-2.0` is accepted by `float(...)`,
so `backoff_delay` returns `(-2) ** 1 = -2` and not the fallback
`2.0 ** 1 = 2` the claim requires for a non-positive base. -/
theorem C6_backoff_negative_base_counterexample :
    (-2 : ℚ) < 0 ∧ backoff_delay (some (-2)) 1 = -2 ∧
      backoff_delay (some (-2)) 1 ≠ 2 ^ (1 : Nat) := by decide

/-- C8 (amended): re-enqueueing an existing id replaces every field of
the stored row with the supplied value — `command`, `state`, `attempts`
(zero when the caller is `enqueue`), `max_retries`, `updated_at`,
`next_run_at`, `last_error`, `priority`, `worker_id` — EXCEPT
`created_at`, which keeps its previously stored value because the
`ON CONFLICT ... DO UPDATE` list omits it; rows with other ids are
untouched. -/
theorem C8_upsert_replaces_except_created_at (job : Job) (s : Store) (j : Job)
    (hj : j ∈ s) (hid : j.id = job.id) :
    { job with created_at := j.created_at } ∈ upsert_job job s ∧
    ∀ x ∈ s, x.id ≠ job.id → x ∈ upsert_job job s :=
  ⟨upsert_mem_updated hj hid, fun _ hx hne => upsert_mem_other hx hne⟩

/-- Witness for C8 (amended): a concrete conflicting upsert stores the
new row with the old `created_at`. -/
theorem C8_upsert_witness :
    { enqueueJob "a" "y" 5 2 2 with created_at := (1 : ℚ) }
      ∈ upsert_job (enqueueJob "a" "y" 5 2 2) [enqueueJob "a" "x" 3 0 1] :=
  (C8_upsert_replaces_except_created_at (enqueueJob "a" "y" 5 2 2)
    [enqueueJob "a" "x" 3 0 1] (enqueueJob "a" "x" 3 0 1) (by simp) rfl).1

/-- Counterexample for C8: re-enqueueing id `"a"` with `created_at = 2`
over a row with `created_at = 1` leaves `created_at = 1` in the table,
so not every field equals the newly supplied value. -/
theorem C8_created_at_counterexample :
    upsert_job (enqueueJob "a" "y" 5 2 2) [enqueueJob "a" "x" 3 0 1] =
      [{ enqueueJob "a" "y" 5 2 2 with created_at := (1 : ℚ) }] ∧
    ({ enqueueJob "a" "y" 5 2 2 with created_at := (1 : ℚ) }).created_at ≠
      (enqueueJob "a" "y" 5 2 2).created_at := by decide

/-- C7: `dlq_retry(id)` succeeds exactly when the store holds a row with
that id in state `dead`; it then rewrites that row to `state=pending,
attempts=0, last_error=null, next_run_at=now` (leaving other rows
alone), and in every other case it reports a client error and leaves
every row unchanged. -/
theorem C7_dlq_retry_requires_dead (id : String) (now : ℚ) (s : Store)
    (hnd : (s.map Job.id).Nodup) :
    ((¬ ∃ j ∈ s, j.id = id ∧ j.state = .dead) → dlq_retry id now s = (false, s)) ∧
    (∀ j ∈ s, j.id = id → j.state = .dead →
      (dlq_retry id now s).1 = true ∧
      { j with state := .pending, attempts := 0, last_error := none,
               next_run_at := now, updated_at := now, worker_id := none }
        ∈ (dlq_retry id now s).2 ∧
      ∀ x ∈ s, x.id ≠ id → x ∈ (dlq_retry id now s).2) := by
  constructor
  · intro hno
    unfold dlq_retry
    cases hg : get_job id s with
    | none => rfl
    | some row =>
      obtain ⟨hrow, hrid⟩ := get_job_mem hg
      have : row.state ≠ .dead := fun hd => hno ⟨row, hrow, hrid, hd⟩
      simp [this]
  · intro j hj hid hdead
    rw [dlq_retry_success hnd hj hid hdead]
    refine ⟨rfl, ?_, ?_⟩
    · exact dlqReset_mem_upsert hj
    · intro x hx hne
      exact upsert_mem_other hx (by simpa [dlqReset, hid] using hne)

/-- Witness for C7: retrying the dead job `"a"` succeeds and resets it;
retrying the absent id `"b"` is rejected with the table unchanged. -/
theorem C7_dlq_retry_witness :
    (dlq_retry "a" 7
        [{ enqueueJob "a" "c" 1 0 0 with state := JState.dead, attempts := 1 }]).1 = true ∧
    { enqueueJob "a" "c" 1 0 0 with
        state := JState.pending, attempts := 0,
        last_error := none, next_run_at := (7 : ℚ), updated_at := (7 : ℚ),
        worker_id := none }
      ∈ (dlq_retry "a" 7
          [{ enqueueJob "a" "c" 1 0 0 with state := JState.dead, attempts := 1 }]).2 ∧
    dlq_retry "b" 7
        [{ enqueueJob "a" "c" 1 0 0 with state := JState.dead, attempts := 1 }] =
      (false, [{ enqueueJob "a" "c" 1 0 0 with state := JState.dead, attempts := 1 }]) := by
  have h := C7_dlq_retry_requires_dead "a" 7
    [{ enqueueJob "a" "c" 1 0 0 with state := JState.dead, attempts := 1 }] (by decide)
  have h2 := (h.2 { enqueueJob "a" "c" 1 0 0 with state := JState.dead, attempts := 1 }
    (by simp) rfl rfl)
  have hb := (C7_dlq_retry_requires_dead "b" 7
    [{ enqueueJob "a" "c" 1 0 0 with state := JState.dead, attempts := 1 }] (by decide)).1
    (by decide)
  exact ⟨h2.1, h2.2.1, hb⟩

/-- C10: a successful `dlq_retry` preserves the dead row's `command`,
`priority`, `max_retries` and `created_at`, changing only `state`,
`attempts`, `last_error`, `next_run_at`, `updated_at` and `worker_id`
(and it leaves all rows with other ids untouched). -/
theorem C10_dlq_retry_preserves_payload (id : String) (now : ℚ) (s : Store) (j : Job)
    (hnd : (s.map Job.id).Nodup) (hj : j ∈ s) (hid : j.id = id)
    (hdead : j.state = .dead) :
    (∃ r ∈ (dlq_retry id now s).2,
      r.id = j.id ∧ r.command = j.command ∧ r.priority = j.priority ∧
      r.max_retries = j.max_retries ∧ r.created_at = j.created_at ∧
      r.state = .pending ∧ r.attempts = 0 ∧ r.last_error = none ∧
      r.next_run_at = now ∧ r.updated_at = now ∧ r.worker_id = none) ∧
    ∀ x ∈ s, x.id ≠ id → x ∈ (dlq_retry id now s).2 := by
  rw [dlq_retry_success hnd hj hid hdead]
  constructor
  · exact ⟨dlqReset now j, dlqReset_mem_upsert hj,
      rfl, rfl, rfl, rfl, rfl, rfl, rfl, rfl, rfl, rfl, rfl⟩
  · intro x hx hne
    exact upsert_mem_other hx (by simpa [dlqReset, hid] using hne)

/-- Witness for C10: the concrete dead job keeps its command, priority,
cap and creation time across a DLQ retry. -/
theorem C10_dlq_retry_witness :
    ∃ r ∈ (dlq_retry "a" 7
        [{ enqueueJob "a" "c" 4 9 3 with
            state := JState.dead, attempts := 4, last_error := some "boom" }]).2,
      r.command = "c" ∧ r.priority = 9 ∧ r.max_retries = 4 ∧ r.created_at = (3 : ℚ) ∧
      r.state = JState.pending ∧ r.attempts = 0 := by
  obtain ⟨⟨r, hr, h1, h2, h3, h4, h5, h6, h7, _⟩, -⟩ :=
    C10_dlq_retry_preserves_payload "a" 7
      [{ enqueueJob "a" "c" 4 9 3 with
          state := JState.dead, attempts := 4, last_error := some "boom" }]
      { enqueueJob "a" "c" 4 9 3 with
          state := JState.dead, attempts := 4, last_error := some "boom" }
      (by decide) (by simp) rfl rfl
  exact ⟨r, hr, h2, h3, h4, h5, h6, h7⟩

end QueueCtl
